import Mathlib

/-
  Verification of the two line-rewriter scripts of the repository:
  scripts/lookup_conversion.py and scripts/palette_conversion.py.

  Each script compiles one fixed regular expression, reads an input file
  line by line, computes `pattern.findall(line)`, and appends formatted
  output to an output file opened in append mode once per line.

  The embedding below hand-compiles the two fixed patterns into a small
  backtracking matcher.  The matcher is a sequence of items; repetition
  items (greedy star `\s*`, lazy plus `\S+?`, greedy plus `\S+`, greedy
  bounded repeat `[0-9]\x7b1,3\x7d`) each repeat a single character class, so a
  repetition's candidate consumption lengths are the prefixes of the
  maximal munch of that class, tried in the order Python's engine tries
  them (shortest first for lazy, longest first for greedy), with full
  backtracking over the remaining items.  `findall` scans successive
  start positions and continues after each match's end, exactly as
  Python's `re.findall` does for these (never-empty-width) patterns.
  Character classes model the ASCII behaviour of `\s` / `\S` / `[0-9]`.
-/

namespace Nest

/-- ASCII model of Python's `\s` class: space, tab, newline, carriage
return, vertical tab, form feed. -/
def isSpaceCh (c : Char) : Bool :=
  c = ' ' || c = '\t' || c = '\n' || c = '\r' || c = '\x0b' || c = '\x0c'

/-- Model of Python's `\S` class: the complement of `isSpaceCh`. -/
def nsp (c : Char) : Bool := !(isSpaceCh c)

/-- The four capture groups of a match, in capture order; both patterns
of the repository have exactly four groups. -/
structure Caps where
  g1 : List Char
  g2 : List Char
  g3 : List Char
  g4 : List Char
deriving DecidableEq

/-- All groups empty, the state at the start of a match attempt. -/
def Caps.emp : Caps := ⟨[], [], [], []⟩

/-- Append captured characters to group `g` (1-based; out-of-range group
numbers leave the state unchanged — both patterns use only 1..4). -/
def Caps.app : Caps → Nat → List Char → Caps
  | c, 1, w => ⟨c.g1 ++ w, c.g2, c.g3, c.g4⟩
  | c, 2, w => ⟨c.g1, c.g2 ++ w, c.g3, c.g4⟩
  | c, 3, w => ⟨c.g1, c.g2, c.g3 ++ w, c.g4⟩
  | c, 4, w => ⟨c.g1, c.g2, c.g3, c.g4 ++ w⟩
  | c, _, _ => c

/-- Read group `g` (1-based; `[]` for out-of-range group numbers). -/
def Caps.get : Caps → Nat → List Char
  | c, 1 => c.g1
  | c, 2 => c.g2
  | c, 3 => c.g3
  | c, 4 => c.g4
  | _, _ => []

/-- One item of a hand-compiled pattern. -/
inductive RItem where
  | lit (c : Char)
  | litCap (g : Nat) (c : Char)
  | starG (p : Char → Bool)
  | plusL (g : Nat) (p : Char → Bool)
  | plusG (g : Nat) (p : Char → Bool)
  | repG (g : Nat) (lo hi : Nat) (p : Char → Bool)

/-- Length of the maximal run of class-`p` characters starting at `pos`. -/
def munch (p : Char → Bool) (s : List Char) (pos : Nat) : Nat :=
  ((s.drop pos).takeWhile p).length

/-- The `k` characters of `s` starting at position `pos`. -/
def slice (s : List Char) (pos k : Nat) : List Char :=
  (s.drop pos).take k

/-- Candidate consumption lengths of a lazy plus: `[1, ..., m]`. -/
def lazyKs (m : Nat) : List Nat := (List.range m).map (· + 1)

/-- Candidate consumption lengths of a greedy plus: `[m, ..., 1]`. -/
def greedyKs (m : Nat) : List Nat := ((List.range m).map (· + 1)).reverse

/-- Candidate consumption lengths of a greedy star: `[m, ..., 0]`. -/
def starKs (m : Nat) : List Nat := (List.range (m + 1)).reverse

/-- Candidate consumption lengths of a greedy bounded repeat:
`[min hi m, ..., lo]`, empty when fewer than `lo` characters munch. -/
def repKs (lo hi m : Nat) : List Nat :=
  if m < lo then [] else ((List.range (min hi m - lo + 1)).map (· + lo)).reverse

/-- First success of `f` over a list of candidates, in order. -/
def firstK (f : Nat → Option α) : List Nat → Option α
  | [] => none
  | k :: ks =>
    match f k with
    | some r => some r
    | none => firstK f ks

/-- One step of the matcher: try item `i` at position `pos`, continuing
with `ih` (the matcher for the remaining items) on every candidate, in
the order Python's backtracking engine tries them. -/
def mrunStep (s : List Char) (i : RItem) (ih : Nat → Caps → Option (Nat × Caps))
    (pos : Nat) (caps : Caps) : Option (Nat × Caps) :=
  match i with
  | .lit c =>
    match s.get? pos with
    | some c2 => if c2 = c then ih (pos + 1) caps else none
    | none => none
  | .litCap g c =>
    match s.get? pos with
    | some c2 => if c2 = c then ih (pos + 1) (caps.app g [c]) else none
    | none => none
  | .starG p =>
    firstK (fun k => ih (pos + k) caps) (starKs (munch p s pos))
  | .plusL g p =>
    firstK (fun k => ih (pos + k) (caps.app g (slice s pos k))) (lazyKs (munch p s pos))
  | .plusG g p =>
    firstK (fun k => ih (pos + k) (caps.app g (slice s pos k))) (greedyKs (munch p s pos))
  | .repG g lo hi p =>
    firstK (fun k => ih (pos + k) (caps.app g (slice s pos k))) (repKs lo hi (munch p s pos))

/-- Backtracking matcher for an item sequence: `mrun s items pos caps`
returns the end position and the accumulated captures of the first
(engine-order) complete match of `items` starting at `pos`. -/
def mrun (s : List Char) (items : List RItem) : Nat → Caps → Option (Nat × Caps) :=
  items.foldr (fun i ih => mrunStep s i ih) (fun pos caps => some (pos, caps))

theorem mrun_nil (s : List Char) (pos : Nat) (caps : Caps) :
    mrun s [] pos caps = some (pos, caps) := rfl

theorem mrun_cons (s : List Char) (i : RItem) (rest : List RItem) (pos : Nat) (caps : Caps) :
    mrun s (i :: rest) pos caps = mrunStep s i (mrun s rest) pos caps := rfl

/-- Scan loop of `findall`: try a match at `pos`; on success record the
captures and continue at the match's end, otherwise advance one
position; `fuel` bounds the number of attempted start positions. -/
def scanAux (items : List RItem) (s : List Char) : Nat → Nat → List Caps
  | 0, _ => []
  | fuel + 1, pos =>
    match mrun s items pos Caps.emp with
    | some (e, caps) => caps :: scanAux items s fuel (max e (pos + 1))
    | none => if pos < s.length then scanAux items s fuel (pos + 1) else []

/-- Model of `pattern.findall(line)`: the list of group tuples of all
non-overlapping matches, scanning left to right. -/
def findall (items : List RItem) (s : List Char) : List Caps :=
  scanAux items s (s.length + 1) 0

/-- Hand-compiled form of the lookup script's pattern
`\x7b\s*"(\S+?)",\s*&a::(\S+?),\s*&a::(\S+?),\s*(\S+)\s*\x7d`
(scripts/lookup_conversion.py, line 3). -/
def lookupItems : List RItem :=
  [.lit '\x7b', .starG isSpaceCh, .lit '"', .plusL 1 nsp, .lit '"', .lit ',',
   .starG isSpaceCh, .lit '&', .lit 'a', .lit ':', .lit ':', .plusL 2 nsp, .lit ',',
   .starG isSpaceCh, .lit '&', .lit 'a', .lit ':', .lit ':', .plusL 3 nsp, .lit ',',
   .starG isSpaceCh, .plusG 4 nsp, .starG isSpaceCh, .lit '\x7d']

/-- Hand-compiled form of the palette script's pattern
`palScreen(\[\S+\]) = olc::Pixel\(([0-9]\x7b1,3\x7d), ([0-9]\x7b1,3\x7d), ([0-9]\x7b1,3\x7d)\);`
(scripts/palette_conversion.py, line 3).  Group 1 captures the bracketed
index including both brackets. -/
def paletteItems : List RItem :=
  [.lit 'p', .lit 'a', .lit 'l', .lit 'S', .lit 'c', .lit 'r', .lit 'e', .lit 'e', .lit 'n',
   .litCap 1 '[', .plusG 1 nsp, .litCap 1 ']',
   .lit ' ', .lit '=', .lit ' ',
   .lit 'o', .lit 'l', .lit 'c', .lit ':', .lit ':',
   .lit 'P', .lit 'i', .lit 'x', .lit 'e', .lit 'l', .lit '(',
   .repG 2 1 3 Char.isDigit, .lit ',', .lit ' ',
   .repG 3 1 3 Char.isDigit, .lit ',', .lit ' ',
   .repG 4 1 3 Char.isDigit, .lit ')', .lit ';']

/-- Model of the lookup script's `pattern.findall(line)`. -/
def lookupFindall (line : List Char) : List Caps := findall lookupItems line

/-- Model of the palette script's `pattern.findall(line)`. -/
def paletteFindall (line : List Char) : List Caps := findall paletteItems line

/-- The lookup script's per-match template
`Instruction::new("%s", Self::%s, Self::%s, %s), ` applied to one match
tuple (scripts/lookup_conversion.py, line 14). -/
def formatLookup (c : Caps) : List Char :=
  "Instruction::new(\"".data ++ c.g1 ++ "\", Self::".data ++ c.g2
    ++ ", Self::".data ++ c.g3 ++ ", ".data ++ c.g4 ++ "), ".data

/-- The palette script's per-match template
`self.palette_screen%s = Rgba([%s, %s, %s, 255]);` applied to one match
tuple (scripts/palette_conversion.py, line 13). -/
def formatPalette (c : Caps) : List Char :=
  "self.palette_screen".data ++ c.g1 ++ " = Rgba([".data ++ c.g2
    ++ ", ".data ++ c.g3 ++ ", ".data ++ c.g4 ++ ", 255]);".data

/-- Everything the lookup script writes for one input line: the fixed
`vec![` prefix, each match's formatted record, then `],` and a newline
(scripts/lookup_conversion.py, lines 12-15). -/
def processLookupLine (line : List Char) : List Char :=
  "vec![".data ++ ((lookupFindall line).map formatLookup).flatten ++ "],\n".data

/-- Everything the palette script writes for one input line: each
match's formatted record, then a newline
(scripts/palette_conversion.py, lines 12-14). -/
def processPaletteLine (line : List Char) : List Char :=
  ((paletteFindall line).map formatPalette).flatten ++ "\n".data

/-- The lookup script's write loop: the output file starts with content
`out0` and each line's text is appended to it in turn (the file is
opened in append mode once per line). -/
def lookupAppendRun (lines : List (List Char)) (out0 : List Char) : List Char :=
  lines.foldl (fun out line => out ++ processLookupLine line) out0

/-- The palette script's write loop, as `lookupAppendRun`. -/
def paletteAppendRun (lines : List (List Char)) (out0 : List Char) : List Char :=
  lines.foldl (fun out line => out ++ processPaletteLine line) out0

/-- The two I/O failures a script run can hit: `open(inputPath)` raising
because the input file does not exist, and `open(outputPath, "a")`
raising because the output path is not writable. -/
inductive IOErr where
  | fileNotFound
  | notWritable
deriving DecidableEq

/-- Outcome of a whole run: the final output-file content, or the error
that aborted the run. -/
inductive RunOut where
  | ok (out : List Char)
  | err (e : IOErr)
deriving DecidableEq

/-- Whether a run outcome is an error. -/
def RunOut.isErr : RunOut → Bool
  | .ok _ => false
  | .err _ => true

/-- The file-system state a run sees: whether the input path exists, the
input file's lines, and whether the output path is writable. -/
structure FileSys where
  inputExists : Bool
  inputLines : List (List Char)
  outWritable : Bool
deriving DecidableEq

/-- The scripts' per-line loop over an open input: each iteration opens
the output in append mode (failing if it is not writable) and appends
that line's text; `acc` is the output content written so far. -/
def writeLoop (w : Bool) (proc : List Char → List Char) :
    List (List Char) → List Char → RunOut
  | [], acc => .ok acc
  | line :: rest, acc =>
    if w then writeLoop w proc rest (acc ++ proc line) else .err .notWritable

/-- A whole run of the lookup script against file system `fs`: opening
the input fails if it does not exist; otherwise every line is processed
by the write loop starting from an empty output file. -/
def lookupRun (fs : FileSys) : RunOut :=
  if fs.inputExists then writeLoop fs.outWritable processLookupLine fs.inputLines []
  else .err .fileNotFound

/-- A whole run of the palette script, as `lookupRun`. -/
def paletteRun (fs : FileSys) : RunOut :=
  if fs.inputExists then writeLoop fs.outWritable processPaletteLine fs.inputLines []
  else .err .fileNotFound

/-- The spec's lookup example line `\x7b "ADC", &a::ADC, &a::IMM, 2 \x7d,`. -/
def adcLine : List Char := "\x7b \"ADC\", &a::ADC, &a::IMM, 2 \x7d,".data

/-- The group tuple the lookup pattern captures on `adcLine`. -/
def adcCaps : Caps := ⟨"ADC".data, "ADC".data, "IMM".data, "2".data⟩

/-- The spec's palette example line. -/
def palLine : List Char := "palScreen[0x00] = olc::Pixel(84, 84, 84);".data

/-- The group tuple the palette pattern captures on `palLine`. -/
def palCaps : Caps := ⟨"[0x00]".data, "84".data, "84".data, "84".data⟩

/-- Variant of `adcLine` with extra spaces inserted at the positions of the lookup
pattern's four `\s*` sub-expressions. -/
def adcLineSpaced : List Char :=
  "\x7b   \"ADC\",   &a::ADC,   &a::IMM,   2   \x7d,".data

/-- Variant of `palLine` with one extra space inserted before the first captured
colour component. -/
def palLineSpaced : List Char := "palScreen[0x00] = olc::Pixel( 84, 84, 84);".data

theorem Caps.get_emp : ∀ g : Nat, Caps.emp.get g = []
  | 0 => rfl
  | 1 => rfl
  | 2 => rfl
  | 3 => rfl
  | 4 => rfl
  | _ + 5 => rfl

theorem Caps.get_app_self (c : Caps) (w : List Char) (g : Nat)
    (h1 : 1 ≤ g) (h2 : g ≤ 4) : (c.app g w).get g = c.get g ++ w := by
  interval_cases g <;> rfl

theorem Caps.app_out (c : Caps) (w : List Char) (g : Nat)
    (h : ¬(1 ≤ g ∧ g ≤ 4)) : c.app g w = c := by
  rcases g with _ | _ | _ | _ | _ | n
  · rfl
  · exact absurd ⟨by omega, by omega⟩ h
  · exact absurd ⟨by omega, by omega⟩ h
  · exact absurd ⟨by omega, by omega⟩ h
  · exact absurd ⟨by omega, by omega⟩ h
  · rfl

theorem Caps.get_app_ne (c : Caps) (w : List Char) (g g' : Nat)
    (h : g ≠ g') : (c.app g' w).get g = c.get g := by
  rcases g' with _ | _ | _ | _ | _ | m <;>
    rcases g with _ | _ | _ | _ | _ | n <;>
    first
      | rfl
      | exact absurd rfl h

theorem firstK_eq_some {α : Type} {f : Nat → Option α} {r : α} :
    ∀ {ks : List Nat}, firstK f ks = some r → ∃ k ∈ ks, f k = some r := by
  intro ks
  induction ks with
  | nil => intro h; simp [firstK] at h
  | cons k ks ih =>
    intro h
    cases hk : f k with
    | some v =>
      rw [firstK, hk] at h
      exact ⟨k, by simp, by rw [hk]; exact h⟩
    | none =>
      rw [firstK, hk] at h
      obtain ⟨k2, hk2, hf⟩ := ih h
      exact ⟨k2, by simp [hk2], hf⟩

theorem mem_lazyKs {k m : Nat} (h : k ∈ lazyKs m) : 1 ≤ k ∧ k ≤ m := by
  simp only [lazyKs, List.mem_map, List.mem_range] at h
  obtain ⟨a, ha, rfl⟩ := h
  omega

theorem mem_greedyKs {k m : Nat} (h : k ∈ greedyKs m) : 1 ≤ k ∧ k ≤ m := by
  simp only [greedyKs, List.mem_reverse, List.mem_map, List.mem_range] at h
  obtain ⟨a, ha, rfl⟩ := h
  omega

theorem mem_starKs {k m : Nat} (h : k ∈ starKs m) : k ≤ m := by
  simp only [starKs, List.mem_reverse, List.mem_range] at h
  omega

theorem mem_repKs {k lo hi m : Nat} (hlohi : lo ≤ hi) (h : k ∈ repKs lo hi m) :
    lo ≤ k ∧ k ≤ hi ∧ k ≤ m := by
  by_cases hm : m < lo
  · simp [repKs, hm] at h
  · simp only [repKs, if_neg hm, List.mem_reverse, List.mem_map, List.mem_range] at h
    obtain ⟨a, ha, rfl⟩ := h
    omega

theorem take_of_le_takeWhile {p : Char → Bool} :
    ∀ (l : List Char) (k : Nat), k ≤ (l.takeWhile p).length →
      ∀ c ∈ l.take k, p c = true := by
  intro l
  induction l with
  | nil => intro k _ c hc; simp at hc
  | cons a l ih =>
    intro k hk c hc
    by_cases hpa : p a
    · cases k with
      | zero => simp at hc
      | succ k =>
        rw [List.take_succ_cons] at hc
        rcases List.mem_cons.mp hc with rfl | hc2
        · exact hpa
        · refine ih k ?_ c hc2
          rw [List.takeWhile_cons_of_pos hpa, List.length_cons] at hk
          omega
    · rw [List.takeWhile_cons_of_neg hpa] at hk
      simp only [List.length_nil, Nat.le_zero] at hk
      subst hk
      simp at hc

theorem slice_all {p : Char → Bool} {s : List Char} {pos k : Nat}
    (h : k ≤ munch p s pos) : ∀ c ∈ slice s pos k, p c = true :=
  take_of_le_takeWhile (s.drop pos) k h

theorem takeWhile_length_le {p : Char → Bool} :
    ∀ l : List Char, (l.takeWhile p).length ≤ l.length := by
  intro l
  induction l with
  | nil => simp
  | cons a l ih =>
    by_cases hpa : p a
    · rw [List.takeWhile_cons_of_pos hpa, List.length_cons, List.length_cons]
      omega
    · rw [List.takeWhile_cons_of_neg hpa]
      simp

theorem slice_length {p : Char → Bool} {s : List Char} {pos k : Nat}
    (h : k ≤ munch p s pos) : (slice s pos k).length = k := by
  have h2 : (List.takeWhile p (s.drop pos)).length ≤ (s.drop pos).length :=
    takeWhile_length_le (s.drop pos)
  rw [munch] at h
  rw [slice, List.length_take]
  omega

/-- The group a pattern item captures into (0 for non-capturing items). -/
def capGroup : RItem → Nat
  | .lit _ => 0
  | .starG _ => 0
  | .litCap g _ => g
  | .plusL g _ => g
  | .plusG g _ => g
  | .repG g _ _ _ => g

/-- Characterisation of the characters one item can contribute to group
`g` in a successful match (an item contributes only to its own in-range
capture group, and nothing otherwise). -/
def blockOK : RItem → Nat → List Char → Prop
  | .lit _, _, b => b = []
  | .starG _, _, b => b = []
  | .litCap g' c, g, b => if g' = g ∧ 1 ≤ g' ∧ g' ≤ 4 then b = [c] else b = []
  | .plusL g' p, g, b =>
    if g' = g ∧ 1 ≤ g' ∧ g' ≤ 4 then b ≠ [] ∧ ∀ c ∈ b, p c = true else b = []
  | .plusG g' p, g, b =>
    if g' = g ∧ 1 ≤ g' ∧ g' ≤ 4 then b ≠ [] ∧ ∀ c ∈ b, p c = true else b = []
  | .repG g' lo hi p, g, b =>
    if g' = g ∧ 1 ≤ g' ∧ g' ≤ 4 then
      lo ≤ b.length ∧ b.length ≤ hi ∧ ∀ c ∈ b, p c = true
    else b = []

/-- Characterisation of the characters an item sequence can contribute
to group `g` in a successful match: one block per item, in order. -/
def groupBlocks : List RItem → Nat → List Char → Prop
  | [], _, w => w = []
  | i :: rest, g, w => ∃ b w2, w = b ++ w2 ∧ blockOK i g b ∧ groupBlocks rest g w2

theorem get_app_cases (caps : Caps) (g g' : Nat) (b : List Char) :
    ((g' = g ∧ 1 ≤ g' ∧ g' ≤ 4) ∧ (caps.app g' b).get g = caps.get g ++ b)
    ∨ (¬(g' = g ∧ 1 ≤ g' ∧ g' ≤ 4) ∧ (caps.app g' b).get g = caps.get g) := by
  by_cases h : g' = g ∧ 1 ≤ g' ∧ g' ≤ 4
  · obtain ⟨rfl, h1, h2⟩ := h
    exact Or.inl ⟨⟨rfl, h1, h2⟩, Caps.get_app_self caps b g' h1 h2⟩
  · refine Or.inr ⟨h, ?_⟩
    by_cases hr : 1 ≤ g' ∧ g' ≤ 4
    · have hne : g ≠ g' := fun he => h ⟨he.symm, hr⟩
      exact Caps.get_app_ne caps b g g' hne
    · rw [Caps.app_out caps b g' hr]

/-- Sanity condition on bounded repeats: the lower bound does not exceed
the upper bound (true of the `[0-9]\x7b1,3\x7d` repeats of the palette
pattern, and vacuous for every other item). -/
def repOKb : RItem → Bool
  | .repG _ lo hi _ => decide (lo ≤ hi)
  | _ => true

/-- In a successful run of the matcher, every group of the final capture
state extends the initial one by a contribution that `groupBlocks`
describes. -/
theorem mrun_caps (s : List Char) :
    ∀ (items : List RItem), (∀ i ∈ items, repOKb i = true) →
      ∀ (pos : Nat) (caps : Caps) (e : Nat) (caps2 : Caps),
      mrun s items pos caps = some (e, caps2) →
      ∀ g : Nat, ∃ w, caps2.get g = caps.get g ++ w ∧ groupBlocks items g w := by
  intro items
  induction items with
  | nil =>
    intro _ pos caps e caps2 h g
    rw [mrun_nil] at h
    simp only [Option.some.injEq, Prod.mk.injEq] at h
    obtain ⟨rfl, rfl⟩ := h
    exact ⟨[], by simp, by rw [groupBlocks]⟩
  | cons i rest ih =>
    intro hwf pos caps e caps2 h g
    have hrest : ∀ j ∈ rest, repOKb j = true :=
      fun j hj => hwf j (List.mem_cons_of_mem i hj)
    rw [mrun_cons] at h
    cases i with
    | lit c =>
      rw [mrunStep] at h
      split at h
      · split at h
        · obtain ⟨w, hw, hgb⟩ := ih hrest (pos + 1) caps e caps2 h g
          exact ⟨w, hw, [], w, by simp, rfl, hgb⟩
        · simp at h
      · simp at h
    | litCap g' c =>
      rw [mrunStep] at h
      split at h
      · split at h
        · obtain ⟨w, hw, hgb⟩ := ih hrest (pos + 1) (caps.app g' [c]) e caps2 h g
          rcases get_app_cases caps g g' [c] with ⟨hin, happ⟩ | ⟨hout, happ⟩
          · refine ⟨[c] ++ w, by rw [hw, happ, List.append_assoc], [c], w, rfl, ?_, hgb⟩
            rw [blockOK, if_pos hin]
          · refine ⟨w, by rw [hw, happ], [], w, by simp, ?_, hgb⟩
            rw [blockOK, if_neg hout]
        · simp at h
      · simp at h
    | starG p =>
      rw [mrunStep] at h
      obtain ⟨k, _, hcall⟩ := firstK_eq_some h
      obtain ⟨w, hw, hgb⟩ := ih hrest (pos + k) caps e caps2 hcall g
      exact ⟨w, hw, [], w, by simp, rfl, hgb⟩
    | plusL g' p =>
      rw [mrunStep] at h
      obtain ⟨k, hk, hcall⟩ := firstK_eq_some h
      obtain ⟨hk1, hk2⟩ := mem_lazyKs hk
      obtain ⟨w, hw, hgb⟩ := ih hrest (pos + k) (caps.app g' (slice s pos k)) e caps2 hcall g
      have hall : ∀ c ∈ slice s pos k, p c = true := slice_all hk2
      have hlen : (slice s pos k).length = k := slice_length hk2
      have hnil : slice s pos k ≠ [] := by
        intro hsl; rw [hsl] at hlen; simp at hlen; omega
      rcases get_app_cases caps g g' (slice s pos k) with ⟨hin, happ⟩ | ⟨hout, happ⟩
      · refine ⟨slice s pos k ++ w, by rw [hw, happ, List.append_assoc],
          slice s pos k, w, rfl, ?_, hgb⟩
        rw [blockOK, if_pos hin]
        exact ⟨hnil, hall⟩
      · refine ⟨w, by rw [hw, happ], [], w, by simp, ?_, hgb⟩
        rw [blockOK, if_neg hout]
    | plusG g' p =>
      rw [mrunStep] at h
      obtain ⟨k, hk, hcall⟩ := firstK_eq_some h
      obtain ⟨hk1, hk2⟩ := mem_greedyKs hk
      obtain ⟨w, hw, hgb⟩ := ih hrest (pos + k) (caps.app g' (slice s pos k)) e caps2 hcall g
      have hall : ∀ c ∈ slice s pos k, p c = true := slice_all hk2
      have hlen : (slice s pos k).length = k := slice_length hk2
      have hnil : slice s pos k ≠ [] := by
        intro hsl; rw [hsl] at hlen; simp at hlen; omega
      rcases get_app_cases caps g g' (slice s pos k) with ⟨hin, happ⟩ | ⟨hout, happ⟩
      · refine ⟨slice s pos k ++ w, by rw [hw, happ, List.append_assoc],
          slice s pos k, w, rfl, ?_, hgb⟩
        rw [blockOK, if_pos hin]
        exact ⟨hnil, hall⟩
      · refine ⟨w, by rw [hw, happ], [], w, by simp, ?_, hgb⟩
        rw [blockOK, if_neg hout]
    | repG g' lo hi p =>
      rw [mrunStep] at h
      obtain ⟨k, hk, hcall⟩ := firstK_eq_some h
      obtain ⟨w, hw, hgb⟩ := ih hrest (pos + k) (caps.app g' (slice s pos k)) e caps2 hcall g
      have hlohi : lo ≤ hi := by
        have := hwf (.repG g' lo hi p) (by simp)
        simpa [repOKb] using this
      obtain ⟨hk1, hk2, hk3⟩ := mem_repKs hlohi hk
      have hall : ∀ c ∈ slice s pos k, p c = true := slice_all hk3
      have hlen : (slice s pos k).length = k := slice_length hk3
      rcases get_app_cases caps g g' (slice s pos k) with ⟨hin, happ⟩ | ⟨hout, happ⟩
      · refine ⟨slice s pos k ++ w, by rw [hw, happ, List.append_assoc],
          slice s pos k, w, rfl, ?_, hgb⟩
        rw [blockOK, if_pos hin]
        exact ⟨by omega, by omega, hall⟩
      · refine ⟨w, by rw [hw, happ], [], w, by simp, ?_, hgb⟩
        rw [blockOK, if_neg hout]

/-- Every capture tuple the scan loop produces comes from a successful
run of the matcher started on the empty capture state. -/
theorem scanAux_mem (items : List RItem) (s : List Char) :
    ∀ (fuel pos : Nat) (c : Caps), c ∈ scanAux items s fuel pos →
      ∃ p2 e, mrun s items p2 Caps.emp = some (e, c) := by
  intro fuel
  induction fuel with
  | zero => intro pos c hc; simp [scanAux] at hc
  | succ fuel ih =>
    intro pos c hc
    rw [scanAux] at hc
    cases hm : mrun s items pos Caps.emp with
    | some r =>
      obtain ⟨e, caps⟩ := r
      rw [hm] at hc
      rcases List.mem_cons.mp hc with rfl | hc2
      · exact ⟨pos, e, hm⟩
      · exact ih _ _ hc2
    | none =>
      rw [hm] at hc
      by_cases hpos : pos < s.length
      · rw [if_pos hpos] at hc
        exact ih _ _ hc
      · rw [if_neg hpos] at hc
        simp at hc

theorem findall_mem {items : List RItem} {s : List Char} {c : Caps}
    (hc : c ∈ findall items s) :
    ∃ pos e, mrun s items pos Caps.emp = some (e, c) :=
  scanAux_mem items s (s.length + 1) 0 c hc

/-- Group contributions of every capture tuple of `findall`. -/
theorem findall_caps {items : List RItem} {s : List Char} {c : Caps}
    (hwf : ∀ i ∈ items, repOKb i = true) (hc : c ∈ findall items s) (g : Nat) :
    groupBlocks items g (c.get g) := by
  obtain ⟨pos, e, hm⟩ := findall_mem hc
  obtain ⟨w, hw, hgb⟩ := mrun_caps s items hwf pos Caps.emp e c hm g
  rw [Caps.get_emp, List.nil_append] at hw
  rw [hw]
  exact hgb

/-- Whether an item's possible capture contributions exclude `'\n'`
(true of every item of both patterns, since `\S` and `[0-9]` reject the
newline character and the only captured literals are brackets). -/
def itemNoNL : RItem → Bool
  | .litCap _ c => if c = '\n' then false else true
  | .plusL _ p => !(p '\n')
  | .plusG _ p => !(p '\n')
  | .repG _ _ _ p => !(p '\n')
  | _ => true

theorem blockOK_noNL {i : RItem} {g : Nat} {b : List Char}
    (hi : itemNoNL i = true) (hb : blockOK i g b) : ∀ c ∈ b, c ≠ '\n' := by
  intro c hc hceq
  subst hceq
  cases i with
  | lit c0 => rw [blockOK] at hb; subst hb; simp at hc
  | starG p => rw [blockOK] at hb; subst hb; simp at hc
  | litCap g' c0 =>
    rw [blockOK] at hb
    rw [itemNoNL] at hi
    split at hb
    · subst hb
      rcases List.mem_singleton.mp hc with rfl
      simp at hi
    · subst hb; simp at hc
  | plusL g' p =>
    rw [blockOK] at hb
    rw [itemNoNL] at hi
    split at hb
    · have := hb.2 '\n' hc
      rw [this] at hi
      simp at hi
    · subst hb; simp at hc
  | plusG g' p =>
    rw [blockOK] at hb
    rw [itemNoNL] at hi
    split at hb
    · have := hb.2 '\n' hc
      rw [this] at hi
      simp at hi
    · subst hb; simp at hc
  | repG g' lo hi2 p =>
    rw [blockOK] at hb
    rw [itemNoNL] at hi
    split at hb
    · have := hb.2.2 '\n' hc
      rw [this] at hi
      simp at hi
    · subst hb; simp at hc

theorem groupBlocks_noNL :
    ∀ {items : List RItem} {g : Nat} {w : List Char},
      (∀ i ∈ items, itemNoNL i = true) → groupBlocks items g w →
      ∀ c ∈ w, c ≠ '\n' := by
  intro items
  induction items with
  | nil =>
    intro g w _ hw
    rw [groupBlocks] at hw
    subst hw
    simp
  | cons i rest ih =>
    intro g w hi hw
    rw [groupBlocks] at hw
    obtain ⟨b, w2, rfl, hb, hw2⟩ := hw
    intro c hc
    rcases List.mem_append.mp hc with h1 | h1
    · exact blockOK_noNL (hi i (by simp)) hb c h1
    · exact ih (fun j hj => hi j (by simp [hj])) hw2 c h1

theorem blockOK_nil_of_ne {i : RItem} {g : Nat} {b : List Char}
    (h : capGroup i ≠ g) (hb : blockOK i g b) : b = [] := by
  cases i with
  | lit c0 => exact hb
  | starG p => exact hb
  | litCap g' c0 =>
    rw [blockOK, if_neg (fun hcon => h hcon.1)] at hb
    exact hb
  | plusL g' p =>
    rw [blockOK, if_neg (fun hcon => h hcon.1)] at hb
    exact hb
  | plusG g' p =>
    rw [blockOK, if_neg (fun hcon => h hcon.1)] at hb
    exact hb
  | repG g' lo hi p =>
    rw [blockOK, if_neg (fun hcon => h hcon.1)] at hb
    exact hb

theorem groupBlocks_nil :
    ∀ {items : List RItem} {g : Nat} {w : List Char},
      (∀ i ∈ items, capGroup i ≠ g) → groupBlocks items g w → w = [] := by
  intro items
  induction items with
  | nil => intro g w _ hw; exact hw
  | cons i rest ih =>
    intro g w hi hw
    rw [groupBlocks] at hw
    obtain ⟨b, w2, rfl, hb, hw2⟩ := hw
    rw [blockOK_nil_of_ne (hi i (by simp)) hb, List.nil_append]
    exact ih (fun j hj => hi j (by simp [hj])) hw2

/-- When exactly one item of the sequence can capture into group `g`,
the whole group contribution is that item's single block. -/
theorem groupBlocks_single :
    ∀ (pre : List RItem) (i : RItem) (post : List RItem) (g : Nat) (w : List Char),
      (∀ j ∈ pre, capGroup j ≠ g) → (∀ j ∈ post, capGroup j ≠ g) →
      groupBlocks (pre ++ i :: post) g w → blockOK i g w := by
  intro pre
  induction pre with
  | nil =>
    intro i post g w _ hpost hw
    rw [List.nil_append, groupBlocks] at hw
    obtain ⟨b, w2, rfl, hb, hw2⟩ := hw
    rw [groupBlocks_nil hpost hw2, List.append_nil]
    exact hb
  | cons j pre2 ih =>
    intro i post g w hpre hpost hw
    rw [List.cons_append, groupBlocks] at hw
    obtain ⟨b, w2, rfl, hb, hw2⟩ := hw
    rw [blockOK_nil_of_ne (hpre j (by simp)) hb, List.nil_append]
    exact ih i post g w2 (fun j2 hj2 => hpre j2 (by simp [hj2])) hpost hw2

/-- No capture of the lookup pattern ever contains a newline. -/
theorem lookup_caps_noNL {line : List Char} {c : Caps}
    (hc : c ∈ lookupFindall line) (g : Nat) : ∀ ch ∈ c.get g, ch ≠ '\n' :=
  groupBlocks_noNL (by decide) (findall_caps (by decide) hc g)

/-- No capture of the palette pattern ever contains a newline. -/
theorem palette_caps_noNL {line : List Char} {c : Caps}
    (hc : c ∈ paletteFindall line) (g : Nat) : ∀ ch ∈ c.get g, ch ≠ '\n' :=
  groupBlocks_noNL (by decide) (findall_caps (by decide) hc g)

/-- The second group of every palette match is a run of one to three
decimal digits. -/
theorem palette_g2_digits {line : List Char} {c : Caps}
    (hc : c ∈ paletteFindall line) :
    1 ≤ c.g2.length ∧ c.g2.length ≤ 3 ∧ ∀ ch ∈ c.g2, ch.isDigit = true := by
  have hgb : groupBlocks paletteItems 2 (c.get 2) := findall_caps (by decide) hc 2
  have hsplit : paletteItems
      = paletteItems.take 26 ++ RItem.repG 2 1 3 Char.isDigit :: paletteItems.drop 27 := by
    rfl
  rw [hsplit] at hgb
  have hb := groupBlocks_single (paletteItems.take 26) _ (paletteItems.drop 27) 2 _
    (by decide) (by decide) hgb
  rw [blockOK, if_pos (by omega)] at hb
  exact hb

/-- The third group of every palette match is a run of one to three
decimal digits. -/
theorem palette_g3_digits {line : List Char} {c : Caps}
    (hc : c ∈ paletteFindall line) :
    1 ≤ c.g3.length ∧ c.g3.length ≤ 3 ∧ ∀ ch ∈ c.g3, ch.isDigit = true := by
  have hgb : groupBlocks paletteItems 3 (c.get 3) := findall_caps (by decide) hc 3
  have hsplit : paletteItems
      = paletteItems.take 29 ++ RItem.repG 3 1 3 Char.isDigit :: paletteItems.drop 30 := by
    rfl
  rw [hsplit] at hgb
  have hb := groupBlocks_single (paletteItems.take 29) _ (paletteItems.drop 30) 3 _
    (by decide) (by decide) hgb
  rw [blockOK, if_pos (by omega)] at hb
  exact hb

/-- The fourth group of every palette match is a run of one to three
decimal digits. -/
theorem palette_g4_digits {line : List Char} {c : Caps}
    (hc : c ∈ paletteFindall line) :
    1 ≤ c.g4.length ∧ c.g4.length ≤ 3 ∧ ∀ ch ∈ c.g4, ch.isDigit = true := by
  have hgb : groupBlocks paletteItems 4 (c.get 4) := findall_caps (by decide) hc 4
  have hsplit : paletteItems
      = paletteItems.take 32 ++ RItem.repG 4 1 3 Char.isDigit :: paletteItems.drop 33 := by
    rfl
  rw [hsplit] at hgb
  have hb := groupBlocks_single (paletteItems.take 32) _ (paletteItems.drop 33) 4 _
    (by decide) (by decide) hgb
  rw [blockOK, if_pos (by omega)] at hb
  exact hb

theorem count_zero_of_noNL {l : List Char} (h : ∀ c ∈ l, c ≠ '\n') :
    l.count '\n' = 0 :=
  List.count_eq_zero.mpr (fun hmem => h '\n' hmem rfl)

theorem flatten_count_zero :
    ∀ rs : List (List Char), (∀ r ∈ rs, r.count '\n' = 0) →
      rs.flatten.count '\n' = 0 := by
  intro rs
  induction rs with
  | nil => intro _; simp
  | cons r rs ih =>
    intro h
    rw [List.flatten_cons, List.count_append, h r (by simp),
      ih (fun r2 hr2 => h r2 (by simp [hr2]))]

/-- A lookup record never contains a newline. -/
theorem formatLookup_count {line : List Char} {c : Caps}
    (hc : c ∈ lookupFindall line) : (formatLookup c).count '\n' = 0 := by
  have h1 : ∀ ch ∈ c.g1, ch ≠ '\n' := lookup_caps_noNL hc 1
  have h2 : ∀ ch ∈ c.g2, ch ≠ '\n' := lookup_caps_noNL hc 2
  have h3 : ∀ ch ∈ c.g3, ch ≠ '\n' := lookup_caps_noNL hc 3
  have h4 : ∀ ch ∈ c.g4, ch ≠ '\n' := lookup_caps_noNL hc 4
  rw [formatLookup]
  simp only [List.count_append]
  rw [count_zero_of_noNL h1, count_zero_of_noNL h2,
    count_zero_of_noNL h3, count_zero_of_noNL h4]
  decide

/-- A palette record never contains a newline. -/
theorem formatPalette_count {line : List Char} {c : Caps}
    (hc : c ∈ paletteFindall line) : (formatPalette c).count '\n' = 0 := by
  have h1 : ∀ ch ∈ c.g1, ch ≠ '\n' := palette_caps_noNL hc 1
  have h2 : ∀ ch ∈ c.g2, ch ≠ '\n' := palette_caps_noNL hc 2
  have h3 : ∀ ch ∈ c.g3, ch ≠ '\n' := palette_caps_noNL hc 3
  have h4 : ∀ ch ∈ c.g4, ch ≠ '\n' := palette_caps_noNL hc 4
  rw [formatPalette]
  simp only [List.count_append]
  rw [count_zero_of_noNL h1, count_zero_of_noNL h2,
    count_zero_of_noNL h3, count_zero_of_noNL h4]
  decide

theorem processLookupLine_countNL (line : List Char) :
    (processLookupLine line).count '\n' = 1 := by
  have hz : ((lookupFindall line).map formatLookup).flatten.count '\n' = 0 := by
    refine flatten_count_zero _ ?_
    intro r hr
    obtain ⟨c, hc, rfl⟩ := List.mem_map.mp hr
    exact formatLookup_count hc
  rw [processLookupLine]
  simp only [List.count_append]
  rw [hz]
  decide

theorem processPaletteLine_countNL (line : List Char) :
    (processPaletteLine line).count '\n' = 1 := by
  have hz : ((paletteFindall line).map formatPalette).flatten.count '\n' = 0 := by
    refine flatten_count_zero _ ?_
    intro r hr
    obtain ⟨c, hc, rfl⟩ := List.mem_map.mp hr
    exact formatPalette_count hc
  rw [processPaletteLine]
  simp only [List.count_append]
  rw [hz]
  decide

/-- Folding list appends starting from `init` is `init` followed by the
fold started from nothing. -/
theorem foldl_append_shift (f : List Char → List Char) :
    ∀ (lines : List (List Char)) (init : List Char),
      lines.foldl (fun out l => out ++ f l) init
        = init ++ lines.foldl (fun out l => out ++ f l) [] := by
  intro lines
  induction lines with
  | nil => intro init; simp
  | cons l rest ih =>
    intro init
    rw [List.foldl_cons, List.foldl_cons, ih (init ++ f l), ih ([] ++ f l)]
    simp [List.append_assoc]

/-- The write loop with a writable output appends every processed line. -/
theorem writeLoop_writable (proc : List Char → List Char) :
    ∀ (lines : List (List Char)) (acc : List Char),
      writeLoop true proc lines acc = .ok (acc ++ (lines.map proc).flatten) := by
  intro lines
  induction lines with
  | nil => intro acc; simp [writeLoop]
  | cons l rest ih =>
    intro acc
    rw [writeLoop, if_pos rfl, ih (acc ++ proc l)]
    simp [List.append_assoc]

theorem writeLoop_not_writable (proc : List Char → List Char)
    (l : List Char) (rest : List (List Char)) (acc : List Char) :
    writeLoop false proc (l :: rest) acc = .err .notWritable := by
  rw [writeLoop, if_neg (by simp)]

theorem lookupAppendRun_shift (lines : List (List Char)) (init : List Char) :
    lookupAppendRun lines init = init ++ lookupAppendRun lines [] :=
  foldl_append_shift processLookupLine lines init

theorem paletteAppendRun_shift (lines : List (List Char)) (init : List Char) :
    paletteAppendRun lines init = init ++ paletteAppendRun lines [] :=
  foldl_append_shift processPaletteLine lines init

/-- C1 counterexample: on the spec's example line the lookup script's
record uses the `Self::` prefix, not `Olc6502::` as the claim states. -/
theorem lookup_adc_record_not_olc :
    (lookupFindall adcLine).map formatLookup
      ≠ ["Instruction::new(\"ADC\", Olc6502::ADC, Olc6502::IMM, 2), ".data] := by
  decide

/-- C1 (amended): the input line `\x7b "ADC", &a::ADC, &a::IMM, 2 \x7d,` yields
pattern groups (ADC, ADC, IMM, 2) and produces exactly the output record
`Instruction::new("ADC", Self::ADC, Self::IMM, 2), ` on its output line,
between the line's fixed prefix `vec![` and suffix `],`, byte-for-byte. -/
theorem lookup_adc_example :
    lookupFindall adcLine = [adcCaps]
    ∧ (lookupFindall adcLine).map formatLookup
        = ["Instruction::new(\"ADC\", Self::ADC, Self::IMM, 2), ".data]
    ∧ processLookupLine adcLine
        = "vec![Instruction::new(\"ADC\", Self::ADC, Self::IMM, 2), ],\n".data := by
  decide

/-- C2 counterexample: the line `hello` has no match, yet the lookup
rewriter's output line for it is `vec![],` — not empty before its
newline. -/
theorem lookup_nomatch_line_not_empty :
    lookupFindall "hello".data = []
    ∧ processLookupLine "hello".data ≠ "\n".data := by
  decide

/-- C2 (amended): for every input line on which the pattern finds no
match, the palette rewriter writes an empty line at the corresponding
position, while the lookup rewriter writes the fixed line `vec![],`
(its per-line prefix and suffix with zero records). -/
theorem nomatch_line_output :
    (∀ line : List Char, paletteFindall line = [] →
        processPaletteLine line = "\n".data)
    ∧ (∀ line : List Char, lookupFindall line = [] →
        processLookupLine line = "vec![],\n".data) := by
  constructor
  · intro line h
    rw [processPaletteLine, h]
    decide
  · intro line h
    rw [processLookupLine, h]
    decide

/-- Witness for the amended C2 theorem at the concrete line `hello`. -/
theorem nomatch_line_output_w :
    (paletteFindall "hello".data = []
      ∧ processPaletteLine "hello".data = "\n".data)
    ∧ (lookupFindall "hello".data = []
      ∧ processLookupLine "hello".data = "vec![],\n".data) :=
  ⟨⟨by decide, nomatch_line_output.1 "hello".data (by decide)⟩,
   ⟨by decide, nomatch_line_output.2 "hello".data (by decide)⟩⟩

/-- C3: for every input, the number of formatted output records equals
the number of successful pattern matches across all input lines, and
every input line — matching or not — contributes exactly one line
terminator to the output, for both scripts. -/
theorem records_eq_matches_one_newline_per_line :
    (∀ lines : List (List Char),
        (lines.map (fun l => ((lookupFindall l).map formatLookup).length)).sum
          = (lines.map (fun l => (lookupFindall l).length)).sum
      ∧ (lines.map (fun l => ((paletteFindall l).map formatPalette).length)).sum
          = (lines.map (fun l => (paletteFindall l).length)).sum)
    ∧ (∀ line : List Char, (processLookupLine line).count '\n' = 1)
    ∧ (∀ line : List Char, (processPaletteLine line).count '\n' = 1) := by
  refine ⟨fun lines => ⟨?_, ?_⟩, processLookupLine_countNL, processPaletteLine_countNL⟩
  · simp
  · simp

/-- C4: the palette input line `palScreen[0x00] = olc::Pixel(84, 84, 84);`
produces the output record `self.palette_screen[0x00] = Rgba([84, 84, 84, 255]);`
byte-for-byte (followed only by the line's newline). -/
theorem palette_example_record :
    (paletteFindall palLine).map formatPalette
      = ["self.palette_screen[0x00] = Rgba([84, 84, 84, 255]);".data]
    ∧ processPaletteLine palLine
      = "self.palette_screen[0x00] = Rgba([84, 84, 84, 255]);\n".data := by
  decide

/-- C5: the rewriters are deterministic — two runs of the same script on
the same input, each against a fresh (empty) output file, produce
byte-identical output. -/
theorem runs_deterministic :
    (∀ (lines : List (List Char)) (o1 o2 : List Char),
        o1 = lookupAppendRun lines [] → o2 = lookupAppendRun lines [] → o1 = o2)
    ∧ (∀ (lines : List (List Char)) (o1 o2 : List Char),
        o1 = paletteAppendRun lines [] → o2 = paletteAppendRun lines [] → o1 = o2) :=
  ⟨fun _ _ _ h1 h2 => h1.trans h2.symm, fun _ _ _ h1 h2 => h1.trans h2.symm⟩

/-- Witness for C5 at a concrete one-line input. -/
theorem runs_deterministic_w :
    lookupAppendRun [adcLine] [] = lookupAppendRun [adcLine] []
    ∧ paletteAppendRun [palLine] [] = paletteAppendRun [palLine] [] :=
  ⟨runs_deterministic.1 [adcLine] _ _ rfl rfl,
   runs_deterministic.2 [palLine] _ _ rfl rfl⟩

/-- C6 counterexample: the palette example line matches once, but adding
one space around its first captured component (`Pixel( 84`) yields a
line with no match at all and a different output line, refuting the
claim that extra whitespace around captured tokens is always tolerated. -/
theorem palette_whitespace_breaks_match :
    (paletteFindall palLine).length = 1
    ∧ paletteFindall palLineSpaced = []
    ∧ processPaletteLine palLineSpaced ≠ processPaletteLine palLine := by
  decide

/-- C6 (amended): extra whitespace is tolerated only at the `\s*`
positions of the lookup pattern — on the example line, extra spaces
there leave the captures and the output unchanged — while the palette
pattern tolerates no extra whitespace around its captured tokens: one
inserted space destroys the match. -/
theorem whitespace_only_at_star_positions :
    lookupFindall adcLineSpaced = lookupFindall adcLine
    ∧ processLookupLine adcLineSpaced = processLookupLine adcLine
    ∧ paletteFindall palLineSpaced = [] := by
  decide

/-- C7: an input line the pattern matches exactly once contributes
exactly one formatted record to its output line, and that record is the
line's four captured groups substituted into the template in capture
order. -/
theorem single_match_single_record :
    (∀ (line : List Char) (c : Caps), lookupFindall line = [c] →
        processLookupLine line = "vec![".data ++ formatLookup c ++ "],\n".data)
    ∧ (∀ (line : List Char) (c : Caps), paletteFindall line = [c] →
        processPaletteLine line = formatPalette c ++ "\n".data)
    ∧ (∀ c : Caps, formatLookup c
        = "Instruction::new(\"".data ++ c.g1 ++ "\", Self::".data ++ c.g2
            ++ ", Self::".data ++ c.g3 ++ ", ".data ++ c.g4 ++ "), ".data)
    ∧ (∀ c : Caps, formatPalette c
        = "self.palette_screen".data ++ c.g1 ++ " = Rgba([".data ++ c.g2
            ++ ", ".data ++ c.g3 ++ ", ".data ++ c.g4 ++ ", 255]);".data) := by
  refine ⟨?_, ?_, fun c => rfl, fun c => rfl⟩
  · intro line c h
    rw [processLookupLine, h]
    simp
  · intro line c h
    rw [processPaletteLine, h]
    simp

/-- Witness for C7 at the two example lines. -/
theorem single_match_single_record_w :
    (lookupFindall adcLine = [adcCaps]
      ∧ processLookupLine adcLine = "vec![".data ++ formatLookup adcCaps ++ "],\n".data)
    ∧ (paletteFindall palLine = [palCaps]
      ∧ processPaletteLine palLine = formatPalette palCaps ++ "\n".data) :=
  ⟨⟨by decide, single_match_single_record.1 adcLine adcCaps (by decide)⟩,
   ⟨by decide, single_match_single_record.2.1 palLine palCaps (by decide)⟩⟩

/-- C8: the output file is opened in append mode once per input line, so
whatever the output file contained before a run is preserved unchanged
as a prefix of the result, and a re-run appends its results after the
previous run's output instead of replacing it, for both scripts. -/
theorem append_mode_preserves_prefix :
    ∀ (lines : List (List Char)) (init : List Char),
      lookupAppendRun lines init = init ++ lookupAppendRun lines []
      ∧ paletteAppendRun lines init = init ++ paletteAppendRun lines []
      ∧ lookupAppendRun lines (lookupAppendRun lines init)
          = init ++ lookupAppendRun lines [] ++ lookupAppendRun lines []
      ∧ paletteAppendRun lines (paletteAppendRun lines init)
          = init ++ paletteAppendRun lines [] ++ paletteAppendRun lines [] := by
  intro lines init
  refine ⟨lookupAppendRun_shift lines init, paletteAppendRun_shift lines init, ?_, ?_⟩
  · rw [lookupAppendRun_shift lines (lookupAppendRun lines init),
      lookupAppendRun_shift lines init]
  · rw [paletteAppendRun_shift lines (paletteAppendRun lines init),
      paletteAppendRun_shift lines init]

/-- C9 counterexample: with an existing but empty input file and a
non-writable output path, both scripts run to completion without any
error — the output file is never opened because the per-line loop has no
iterations — contradicting the claim that a run fails whenever the
output path is not writable. -/
theorem empty_input_unwritable_no_error :
    lookupRun ⟨true, [], false⟩ = .ok []
    ∧ paletteRun ⟨true, [], false⟩ = .ok []
    ∧ (⟨true, [], false⟩ : FileSys).outWritable = false := by
  decide

/-- C9 (amended): a run fails with a file-not-found/IO error exactly
when the input path does not exist, or the output path is not writable
and the input has at least one line; a line whose content does not match
the pattern yields zero records for that line with no error raised, and
processing continues through the whole file. -/
theorem error_iff_missing_input_or_unwritable :
    (∀ fs : FileSys, (lookupRun fs).isErr = true
        ↔ (fs.inputExists = false ∨ (fs.outWritable = false ∧ fs.inputLines ≠ [])))
    ∧ (∀ fs : FileSys, (paletteRun fs).isErr = true
        ↔ (fs.inputExists = false ∨ (fs.outWritable = false ∧ fs.inputLines ≠ [])))
    ∧ (∀ fs : FileSys, fs.inputExists = true → fs.outWritable = true →
        lookupRun fs = .ok ((fs.inputLines.map processLookupLine).flatten)
        ∧ paletteRun fs = .ok ((fs.inputLines.map processPaletteLine).flatten))
    ∧ (∀ line : List Char, lookupFindall line = [] →
        (lookupFindall line).map formatLookup = [])
    ∧ (∀ line : List Char, paletteFindall line = [] →
        (paletteFindall line).map formatPalette = []) := by
  refine ⟨?_, ?_, ?_, ?_, ?_⟩
  · rintro ⟨ie, ils, ow⟩
    cases ie with
    | false => simp [lookupRun, RunOut.isErr]
    | true =>
      cases ow with
      | true => simp [lookupRun, writeLoop_writable, RunOut.isErr]
      | false =>
        cases ils with
        | nil => simp [lookupRun, writeLoop, RunOut.isErr]
        | cons l rest => simp [lookupRun, writeLoop_not_writable, RunOut.isErr]
  · rintro ⟨ie, ils, ow⟩
    cases ie with
    | false => simp [paletteRun, RunOut.isErr]
    | true =>
      cases ow with
      | true => simp [paletteRun, writeLoop_writable, RunOut.isErr]
      | false =>
        cases ils with
        | nil => simp [paletteRun, writeLoop, RunOut.isErr]
        | cons l rest => simp [paletteRun, writeLoop_not_writable, RunOut.isErr]
  · rintro ⟨ie, ils, ow⟩ hie how
    simp only at hie how
    subst hie
    subst how
    constructor
    · simp [lookupRun, writeLoop_writable]
    · simp [paletteRun, writeLoop_writable]
  · intro line h
    rw [h]
    rfl
  · intro line h
    rw [h]
    rfl

/-- Witness for the amended C9 theorem at concrete file systems. -/
theorem error_iff_missing_input_or_unwritable_w :
    ((lookupRun ⟨false, [], true⟩).isErr = true
      ↔ ((⟨false, [], true⟩ : FileSys).inputExists = false
          ∨ ((⟨false, [], true⟩ : FileSys).outWritable = false
              ∧ (⟨false, [], true⟩ : FileSys).inputLines ≠ [])))
    ∧ ((⟨true, ["hello".data], true⟩ : FileSys).inputExists = true
      ∧ lookupRun ⟨true, ["hello".data], true⟩
          = .ok (((["hello".data] : List (List Char)).map processLookupLine).flatten)) :=
  ⟨error_iff_missing_input_or_unwritable.1 ⟨false, [], true⟩,
   ⟨rfl, (error_iff_missing_input_or_unwritable.2.2.1 ⟨true, ["hello".data], true⟩ rfl rfl).1⟩⟩

/-- C10: the palette pattern accepts a colour component only as a run of
one to three decimal digits — every match's three components are such
runs; a component with four or more digits or with a non-digit character
produces zero matches and contributes no record; and there is no range
check beyond digit count: `999` is accepted. -/
theorem palette_components_digit_runs :
    (∀ (line : List Char) (c : Caps), c ∈ paletteFindall line →
        (1 ≤ c.g2.length ∧ c.g2.length ≤ 3 ∧ ∀ ch ∈ c.g2, ch.isDigit = true)
        ∧ (1 ≤ c.g3.length ∧ c.g3.length ≤ 3 ∧ ∀ ch ∈ c.g3, ch.isDigit = true)
        ∧ (1 ≤ c.g4.length ∧ c.g4.length ≤ 3 ∧ ∀ ch ∈ c.g4, ch.isDigit = true))
    ∧ paletteFindall "palScreen[0x00] = olc::Pixel(1000, 84, 84);".data = []
    ∧ paletteFindall "palScreen[0x00] = olc::Pixel(84, 8a4, 84);".data = []
    ∧ (paletteFindall "palScreen[0x00] = olc::Pixel(999, 84, 84);".data).map formatPalette
        = ["self.palette_screen[0x00] = Rgba([999, 84, 84, 255]);".data] := by
  refine ⟨?_, by decide, by decide, by decide⟩
  intro line c hc
  exact ⟨palette_g2_digits hc, palette_g3_digits hc, palette_g4_digits hc⟩

/-- Witness for C10 at the palette example line and its capture tuple. -/
theorem palette_components_digit_runs_w :
    palCaps ∈ paletteFindall palLine
    ∧ ((1 ≤ palCaps.g2.length ∧ palCaps.g2.length ≤ 3
          ∧ ∀ ch ∈ palCaps.g2, ch.isDigit = true)
      ∧ (1 ≤ palCaps.g3.length ∧ palCaps.g3.length ≤ 3
          ∧ ∀ ch ∈ palCaps.g3, ch.isDigit = true)
      ∧ (1 ≤ palCaps.g4.length ∧ palCaps.g4.length ≤ 3
          ∧ ∀ ch ∈ palCaps.g4, ch.isDigit = true)) :=
  ⟨by decide, palette_components_digit_runs.1 palLine palCaps (by decide)⟩

end Nest
